import Mathlib

/-!
Verification of the spaczz fuzzy span-search engine and its matcher façade.

The repository ships three Python files: `src/spaczz/_fuzz.py` (the similarity
function registry), `src/spaczz/matcher/fuzzymatcher.py` (the matcher façade)
and `tests/test_fuzzysearch.py` (the unit tests of the core `FuzzySearch`
engine).  The engine itself (`spaczz/fuzz/fuzzysearch.py`) is not part of the
source tree, so its operations are modelled from the specification
(sections 4.3 to 4.8) and pinned down by the repository's unit tests, which
fix every numeric score and every boundary decision exercised below.
The registry and the matcher façade are embedded directly from their sources.
-/

/-- Modelled from the spec: a Token of the external tokenizer (spec section 3),
carrying the surface form, the trailing whitespace that separates it from the
next token (so that joined span text reproduces spaCy `Span.text`), and the
stop-word / punctuation flags consumed by the trim rules. -/
structure Token where
  text : String
  ws : String
  is_stop : Bool
  is_punct : Bool
deriving DecidableEq

/-- ASCII lower-casing of one character, the fragment of Python `str.lower`
exercised by the engine's inputs. -/
def lowerChar (c : Char) : Char :=
  if 'A' ≤ c ∧ c ≤ 'Z' then Char.ofNat (c.toNat + 32) else c

/-- ASCII lower-casing of a string (Python `str.lower` on the engine's
ASCII inputs). -/
def toLowerStr (s : String) : String :=
  ⟨s.data.map lowerChar⟩

/-- Python `round` of the fraction `num / den` (`den > 0`): round half to
even, as used when the engine rounds the float similarity to an integer
score. -/
def pyRound (num den : Nat) : Nat :=
  let q := num / den
  let r := num % den
  if 2 * r < den then q
  else if den < 2 * r then q + 1
  else if q % 2 == 0 then q else q + 1

/-- One row of the longest-common-subsequence dynamic programme: given the
previous row (`prev`, indexed over `b` with a leading entry), the current
character `c` of the first string and the value `left` just computed, produce
the new row over the remaining characters of `b`. -/
def lcsRow (c : Char) : List Char → List Nat → Nat → List Nat
  | [], _, _ => []
  | bj :: bs, prev, left =>
    let diag := prev.headD 0
    let up := prev.tail.headD 0
    let cur := if c == bj then diag + 1 else max left up
    cur :: lcsRow c bs prev.tail cur

/-- Length of the longest common subsequence of two character lists. -/
def lcsLen (a b : List Char) : Nat :=
  let lastRow := a.foldl (fun prev c => 0 :: lcsRow c b prev 0) (List.replicate (b.length + 1) 0)
  lastRow.getLastD 0

/-- Modelled from the spec: the injected plain-ratio similarity function
(the string metric itself is a non-goal of the core, spec section 1; it is
the indel ratio `100 * 2 * lcs / (len a + len b)` rounded Python-style,
which reproduces every score fixed by the repository's tests, e.g.
`match("spaczz", "spacy") = 73`). -/
def ratioScore (a b : String) : Nat :=
  let la := a.length
  let lb := b.length
  if la + lb == 0 then 100 else pyRound (200 * lcsLen a.data b.data) (la + lb)

/-- Modelled from the spec: the engine's `match` wrapper, lower-casing both
texts first when `ignoreCase` is set (spec section 4.3 case-folding rule). -/
def matchScore (sim : String → String → Nat) (ignoreCase : Bool) (a b : String) : Nat :=
  if ignoreCase then sim (toLowerStr a) (toLowerStr b) else sim a b

/-- Text of a token slice: each token contributes its surface form followed by
its trailing whitespace, except the last (spaCy `Span.text`). -/
def spanTextAux : List Token → String
  | [] => ""
  | [t] => t.text
  | t :: ts => t.text ++ t.ws ++ spanTextAux ts

/-- Text of the half-open token range `[l, r)` of a document. -/
def spanText (doc : List Token) (l r : Nat) : String :=
  spanTextAux ((doc.drop l).take (r - l))

/-- Text of a whole token sequence. -/
def docText (doc : List Token) : String := spanTextAux doc

/-- Modelled from the spec: the Window Scanner `_scan_doc`
(spec section 4.3).  For every start offset `i` in
`0 .. len(doc) - len(query)` it scores the window `doc[i : i + len(query)]`
against the query and keeps `i ↦ score` when `score ≥ minR1`; the candidate
map is the resulting association list with ascending keys (empty whenever the
document is shorter than the query). -/
def scanDoc (doc query : List Token) (sim : String → String → Nat) (minR1 : Nat)
    (ignoreCase : Bool) : List (Nat × Nat) :=
  let w := query.length
  (List.range (doc.length + 1 - w)).filterMap (fun i =>
    let s := matchScore sim ignoreCase (spanText doc i (i + w)) (docText query)
    if minR1 ≤ s then some (i, s) else none)

/-- Modelled from the spec: `_index_max` (spec section 4.7): the key holding
the maximum score, the earliest key on ties, `none` on the empty map. -/
def indexMax (m : List (Nat × Nat)) : Option Nat :=
  (m.foldl (fun acc kv =>
    match acc with
    | none => some kv
    | some best => if best.2 < kv.2 then some kv else some best) none).map Prod.fst

/-- Stable insertion of `x` into `l`: `x` is placed before the first element
it compares `le` to, so earlier input elements stay before equal later ones. -/
def insertIn (le : α → α → Bool) (x : α) : List α → List α
  | [] => [x]
  | y :: ys => if le x y then x :: y :: ys else y :: insertIn le x ys

/-- Stable insertion sort with respect to the boolean relation `le`
(the Python `sorted` / `heapq.nlargest` orderings used by the engine). -/
def insSort (le : α → α → Bool) : List α → List α
  | [] => []
  | x :: xs => insertIn le x (insSort le xs)

/-- Descending-score comparison of candidate-map entries, stable on ties
(ties keep input order, which is ascending key order for a scanner map). -/
def valLe (a b : Nat × Nat) : Bool := b.2 ≤ a.2

/-- Result of `_indice_maxes`: for `n > 0` a ranked list of keys; for `n = 0`
the input mapping handed back unchanged (the repository's test
`test__indice_maxes_returns_input_if_n_is_0` asserts the result compares
equal to the input dict, hence the sum type). -/
inductive IndiceResult where
  | keys : List Nat → IndiceResult
  | mapping : List (Nat × Nat) → IndiceResult
deriving DecidableEq

/-- Modelled from the spec: `_indice_maxes` (spec section 4.7).  For `n > 0`
it returns the `n` keys with the highest scores, ordered by descending score
and ascending key among ties (`heapq.nlargest` over the map's insertion
order); for `n = 0` it returns the input mapping itself, unchanged, as fixed
by the repository's test `test__indice_maxes_returns_input_if_n_is_0`. -/
def indiceMaxes (m : List (Nat × Nat)) (n : Nat) : IndiceResult :=
  if n == 0 then .mapping m
  else .keys (((insSort valLe m).take n).map Prod.fst)

/-- Whether the token at index `i` satisfies any of the active trim
predicates (out-of-range indices never do). -/
def isTrimmed (doc : List Token) (tr : List (Token → Bool)) (i : Nat) : Bool :=
  match doc[i]? with
  | some t => tr.any (fun p => p t)
  | none => false

/-- Fuel-indexed version of the start-trimming loop: advance the start index
one token at a time while the token there satisfies a trim predicate. -/
def startLoopAux (doc : List Token) (tr : List (Token → Bool)) : Nat → Nat → Nat
  | 0, s => s
  | fuel + 1, s => if isTrimmed doc tr s then startLoopAux doc tr fuel (s + 1) else s

/-- The start-trimming loop of spec section 4.5: `while start < end` and the
token at `start` is trimmable, advance `start` (the fuel `e - s` encodes the
`start < end` bound). -/
def startLoop (doc : List Token) (tr : List (Token → Bool)) (e s : Nat) : Nat :=
  startLoopAux doc tr (e - s) s

/-- Modelled from the spec: `_enforce_start_trimmers` (spec section 4.5):
advance `start` over trimmable tokens; if it reaches `end` the result is
"no span" (`none`), never a degenerate span. -/
def enforceStartTrimmers (doc : List Token) (tr : List (Token → Bool)) (s e : Nat) :
    Option Nat :=
  let s2 := startLoop doc tr e s
  if s2 == e then none else some s2

/-- Fuel-indexed version of the end-trimming loop: retreat the end index one
token at a time while the token at `end - 1` satisfies a trim predicate. -/
def endLoopAux (doc : List Token) (tr : List (Token → Bool)) : Nat → Nat → Nat
  | 0, e => e
  | fuel + 1, e => if isTrimmed doc tr (e - 1) then endLoopAux doc tr fuel (e - 1) else e

/-- The end-trimming loop of spec section 4.5: `while end > start` and the
token at `end - 1` is trimmable, retreat `end`. -/
def endLoop (doc : List Token) (tr : List (Token → Bool)) (s e : Nat) : Nat :=
  endLoopAux doc tr (e - s) e

/-- Modelled from the spec: `_enforce_end_trimmers` (spec section 4.5):
retreat `end` over trimmable tokens; collapse to `end = start` is
"no span" (`none`). -/
def enforceEndTrimmers (doc : List Token) (tr : List (Token → Bool)) (s e : Nat) :
    Option Nat :=
  let e2 := endLoop doc tr s e
  if e2 == s then none else some e2

/-- Modelled from the spec: `_enforce_trimming_rules` (spec section 4.5).
The start side runs first on the original `(s, e)`; when it collapses, the
result pair reports the collapsed side as absent with the other boundary
unchanged (the repository's squash test fixes the pair `(None, 10)`);
otherwise the end side runs (theorem `C8_trim_collapse` proves it computes
the same boundary as running on the original `(s, e)`). -/
def enforceTrimmingRules (doc : List Token) (tr : List (Token → Bool)) (s e : Nat) :
    Option Nat × Option Nat :=
  match enforceStartTrimmers doc tr s e with
  | none => (none, some e)
  | some s2 => (some s2, enforceEndTrimmers doc tr s2 e)

/-- Distance of two naturals. -/
def natDist (a b : Nat) : Nat := (a - b) + (b - a)

/-- A scored boundary candidate of the optimizer: boundaries, score and
proximity (total displacement from the naive span). -/
structure Cand where
  l : Nat
  r : Nat
  score : Nat
  prox : Nat
deriving DecidableEq

/-- Preference order on optimizer candidates (spec section 4.4): higher
score first, then closer to the naive span, then lexicographically
smallest `(l, r)`. -/
def betterCand (a b : Cand) : Bool :=
  (b.score < a.score) ||
  (a.score == b.score && a.prox < b.prox) ||
  (a.score == b.score && a.prox == b.prox &&
    ((a.l < b.l) || (a.l == b.l && a.r < b.r)))

/-- Boundary pairs explored by the optimizer around position `pos`: left
boundaries within `flex` of `pos`, right boundaries within `flex` of the
naive end `pos + len(query)`, both clipped to `[0, len(doc)]` and never
crossing (spec section 4.4). -/
def candPairs (doc query : List Token) (flex : Nat) (pos : Nat) : List (Nat × Nat) :=
  let naiveR := pos + query.length
  let d := doc.length
  let ls := (List.range (2 * flex + 1)).filterMap (fun k =>
    let l := pos + k - flex
    if pos + k < flex then none else if l ≤ d then some l else none)
  let rs := (List.range (2 * flex + 1)).filterMap (fun k =>
    let r := naiveR + k - flex
    if naiveR + k < flex then none else if r ≤ d then some r else none)
  (ls.flatMap (fun l => rs.map (fun r => (l, r)))).filter (fun p => p.1 < p.2)

/-- Modelled from the spec: the Boundary Optimizer `_adjust_left_right_positions`
(spec section 4.4).  Every boundary combination within `flex` of the naive
span is scored against the query; the best one (ties resolved by
`betterCand`) is trimmed by the rules of section 4.5 — a collapse on either
side is "no span" — then rescored, and dropped when the trimmed score is
below `minR2`. -/
def optimize (doc query : List Token) (sim : String → String → Nat) (minR2 : Nat)
    (ignoreCase : Bool) (flex : Nat) (tr : List (Token → Bool)) (pos : Nat) :
    Option (Nat × Nat × Nat) :=
  let naiveR := pos + query.length
  let qt := docText query
  let cands := (candPairs doc query flex pos).map (fun p =>
    Cand.mk p.1 p.2 (matchScore sim ignoreCase (spanText doc p.1 p.2) qt)
      (natDist p.1 pos + natDist p.2 naiveR))
  let best := cands.foldl (fun acc c =>
    match acc with
    | none => some c
    | some b => if betterCand c b then some c else some b) none
  match best with
  | none => none
  | some b =>
    match enforceTrimmingRules doc tr b.l b.r with
    | (some l2, some r2) =>
      let sc := matchScore sim ignoreCase (spanText doc l2 r2) qt
      if sc < minR2 then none else some (l2, r2, sc)
    | _ => none

/-- Whether the half-open token ranges of two matches share a token index. -/
def overlapsB (a b : Nat × Nat × Nat) : Bool :=
  a.1 < b.2.1 && b.1 < a.2.1

/-- Worker of the Overlap Filter: iterate the input in order, keeping a match
only when it overlaps none of the previously kept ones (`acc`). -/
def filterOverAux : List (Nat × Nat × Nat) → List (Nat × Nat × Nat) → List (Nat × Nat × Nat)
  | acc, [] => acc.reverse
  | acc, m :: rest =>
    if acc.any (fun k => overlapsB m k) then filterOverAux acc rest
    else filterOverAux (m :: acc) rest

/-- Modelled from the spec: the Overlap Filter `_filter_overlapping_matches`
(spec section 4.6): a greedy single pass in which the first entry wins on
overlap. -/
def filterOverlappingMatches (ms : List (Nat × Nat × Nat)) : List (Nat × Nat × Nat) :=
  filterOverAux [] ms

/-- Ranking order on matches: descending score, then ascending start index
(spec sections 4.7 and 4.8). -/
def matchLe (a b : Nat × Nat × Nat) : Bool :=
  (b.2.2 < a.2.2) || (a.2.2 == b.2.2 && a.1 ≤ b.1)

/-- Sort matches by descending score then ascending start index. -/
def sortMatches (ms : List (Nat × Nat × Nat)) : List (Nat × Nat × Nat) :=
  insSort matchLe ms

/-- Modelled from the spec: `multi_match` (spec section 4.8): scan for
first-pass candidates, optimize each one independently, discard the `none`s,
sort by descending score then ascending start, apply the Overlap Filter and
truncate to the top `n` (`n = 0` meaning unlimited). -/
def multiMatch (doc query : List Token) (sim : String → String → Nat) (minR1 minR2 : Nat)
    (ignoreCase : Bool) (flex : Nat) (tr : List (Token → Bool)) (n : Nat) :
    List (Nat × Nat × Nat) :=
  let cands := scanDoc doc query sim minR1 ignoreCase
  let opts := cands.filterMap (fun kv => optimize doc query sim minR2 ignoreCase flex tr kv.1)
  let filtered := filterOverlappingMatches (sortMatches opts)
  if n == 0 then filtered else filtered.take n

/-- Modelled from the spec: `best_match` (spec section 4.8): run the
Scanner, pick the candidate with `_index_max`, refine it with the Optimizer
and return the refined match (already satisfying both thresholds) or
`none`. -/
def bestMatch (doc query : List Token) (sim : String → String → Nat) (minR1 minR2 : Nat)
    (ignoreCase : Bool) (flex : Nat) (tr : List (Token → Bool)) : Option (Nat × Nat × Nat) :=
  match indexMax (scanDoc doc query sim minR1 ignoreCase) with
  | none => none
  | some pos => optimize doc query sim minR2 ignoreCase flex tr pos

/-- Modelled from the spec: `best_match` under its default settings
(thresholds 75/75, case-insensitive, default flex resolving to the query
length, no trim rules; the injected similarity is `ratioScore`, the metric
every score fixed by the repository's tests agrees with). -/
def bestMatchDefault (doc query : List Token) : Option (Nat × Nat × Nat) :=
  bestMatch doc query ratioScore 75 75 true query.length []

/-- Modelled from the spec: `multi_match` under its default settings with an
explicit `ignore_case` flag and limit `n`. -/
def multiMatchDefault (doc query : List Token) (ignoreCase : Bool) (n : Nat) :
    List (Nat × Nat × Nat) :=
  multiMatch doc query ratioScore 75 75 ignoreCase query.length [] n

/-- Tags for the ten rapidfuzz similarity callables housed by `FuzzyFuncs`
(`src/spaczz/_fuzz.py`); the callables themselves are external. -/
inductive FuzzFn where
  | simpleF
  | partF
  | tokenSetF
  | tokenSortF
  | tokenF
  | partTokenSetF
  | partTokenSortF
  | partTokenF
  | weightedF
  | quickF
deriving DecidableEq

/-- The phrase-mode function table of `FuzzyFuncs.__init__`
(`_fuzz.py` lines 49-60), in source order. -/
def phraseFuncs : List (String × FuzzFn) :=
  [("simple", .simpleF), ("partial", .partF), ("token_set", .tokenSetF),
   ("token_sort", .tokenSortF), ("token", .tokenF),
   ("partial_token_set", .partTokenSetF), ("partial_token_sort", .partTokenSortF),
   ("partial_token", .partTokenF), ("weighted", .weightedF), ("quick", .quickF)]

/-- The token-mode function table of `FuzzyFuncs.__init__`
(`_fuzz.py` lines 62-65). -/
def tokenFuncs : List (String × FuzzFn) :=
  [("simple", .simpleF), ("quick", .quickF)]

/-- The registry state: the stored `match_type` and the `fuzzy_funcs`
table. -/
structure FuzzyFuncs where
  match_type : String
  fuzzy_funcs : List (String × FuzzFn)
deriving DecidableEq

/-- The construction error of `FuzzyFuncs.__init__`: the `ValueError`
raised for a `match_type` other than "phrase" or "token" (the spec's
`InvalidConfiguration`). -/
inductive ConfigErr where
  | invalidMatchType
deriving DecidableEq

/-- Embedding of `FuzzyFuncs.__init__` (`_fuzz.py` lines 36-67): "phrase"
installs the ten-function table, "token" the two-function table, anything
else raises `ValueError`. -/
def FuzzyFuncs.init (matchType : String) : Except ConfigErr FuzzyFuncs :=
  if matchType == "phrase" then .ok ⟨matchType, phraseFuncs⟩
  else if matchType == "token" then .ok ⟨matchType, tokenFuncs⟩
  else .error .invalidMatchType

/-- Embedding of `FuzzyFuncs.get` (`_fuzz.py` lines 69-99): look the name up
case-folded; a miss raises a `ValueError` whose message carries the active
`match_type`, the requested name and the list of available key names. -/
def FuzzyFuncs.get (ff : FuzzyFuncs) (fuzzyFunc : String) :
    Except (String × String × List String) FuzzFn :=
  match ff.fuzzy_funcs.lookup (toLowerStr fuzzyFunc) with
  | some f => .ok f
  | none => .error (ff.match_type, fuzzyFunc, ff.fuzzy_funcs.map Prod.fst)

/-- A kwargs dictionary of per-pattern overrides, modelled as a finite
association list (its contents are only threaded through). -/
abbrev KwDict := List (String × Nat)

/-- An element of the `patterns` iterable passed to `FuzzyMatcher.add`:
either a spaCy `Doc` (a token sequence) or some non-`Doc` object. -/
inductive PatIn where
  | doc : List Token → PatIn
  | notDoc : PatIn
deriving DecidableEq

/-- An element of the `kwargs` list passed to `FuzzyMatcher.add`: either a
dict or some non-dict object. -/
inductive KwIn where
  | dict : KwDict → KwIn
  | notDict : KwIn
deriving DecidableEq

/-- The two `TypeError`s of `FuzzyMatcher.add` (`fuzzymatcher.py` lines
235-243). -/
inductive AddErr where
  | patternTypeError
  | kwargsTypeError
deriving DecidableEq

/-- State of a `FuzzyMatcher`: the instance defaults, and per label the two
parallel lists `_patterns[label]["patterns"]` / `_patterns[label]["kwargs"]`
plus the `_callbacks` table (callbacks modelled by opaque identifiers). -/
structure FMState where
  defaults : KwDict
  pats : List (String × (List (List Token) × List KwDict))
  callbacks : List (String × Option Nat)
deriving DecidableEq

/-- Update (or insert at the end, as a Python dict would) the entry of
`label` in an association list. -/
def setAssoc (label : String) (e : β) : List (String × β) → List (String × β)
  | [] => [(label, e)]
  | (k, v) :: rest => if k == label then (k, e) :: rest else (k, v) :: setAssoc label e rest

/-- The per-label entry of the matcher's pattern table, defaulting to a pair
of empty lists (`defaultdict` semantics). -/
def lookupEntry (st : FMState) (label : String) : List (List Token) × List KwDict :=
  (st.pats.lookup label).getD ([], [])

/-- One mutation `self._patterns[label]["patterns"].append(pattern)`. -/
def appendPat (st : FMState) (label : String) (d : List Token) : FMState :=
  let en := lookupEntry st label
  { st with pats := setAssoc label (en.1 ++ [d], en.2) st.pats }

/-- One mutation `self._patterns[label]["kwargs"].append(kwarg)`. -/
def appendKw (st : FMState) (label : String) (kw : KwDict) : FMState :=
  let en := lookupEntry st label
  { st with pats := setAssoc label (en.1, en.2 ++ [kw]) st.pats }

/-- The main loop of `FuzzyMatcher.add` (`fuzzymatcher.py` lines 235-243):
for each zipped (pattern, kwarg), append the pattern when it is a `Doc`
(raising `TypeError` otherwise), then append the kwarg when it is a dict
(raising `TypeError` otherwise).  A raise returns the state mutated so far —
nothing is rolled back. -/
def addLoop (label : String) : FMState → List (PatIn × KwIn) → FMState × Option AddErr
  | st, [] => (st, none)
  | st, (p, k) :: rest =>
    match p with
    | .notDoc => (st, some .patternTypeError)
    | .doc d =>
      let st1 := appendPat st label d
      match k with
      | .notDict => (st1, some .kwargsTypeError)
      | .dict kw => addLoop label (appendKw st1 label kw) rest

/-- The kwargs normalisation of `FuzzyMatcher.add` (lines 218-234): `None`
becomes one empty dict per pattern, a short list is padded with empty dicts,
a long list is simply zip-truncated. -/
def padKwargs (kwOpt : Option (List KwIn)) (numPats : Nat) : List KwIn :=
  match kwOpt with
  | none => List.replicate numPats (.dict [])
  | some ks =>
    if ks.length < numPats then ks ++ List.replicate (numPats - ks.length) (.dict [])
    else ks

/-- Embedding of `FuzzyMatcher.add` (`fuzzymatcher.py` lines 173-244):
normalise kwargs, run the append loop over the zipped pairs, and only on
success record the `on_match` callback for the label. -/
def fmAdd (st : FMState) (label : String) (patterns : List PatIn)
    (kwargsOpt : Option (List KwIn)) (onMatch : Option Nat) : FMState × Option AddErr :=
  let kws := padKwargs kwargsOpt patterns.length
  match addLoop label st (patterns.zip kws) with
  | (st2, some e) => (st2, some e)
  | (st2, none) => ({ st2 with callbacks := setAssoc label onMatch st2.callbacks }, none)

/-- The sort order of `FuzzyMatcher.__call__` (`fuzzymatcher.py` line 108,
key `(x[1], -x[2] - x[1])`): ascending start index, then descending end
index (descending span length among equal starts). -/
def fmLe (a b : String × Nat × Nat) : Bool :=
  (a.2.1 < b.2.1) || (a.2.1 == b.2.1 && b.2.2 ≤ a.2.2)

/-- Embedding of `FuzzyMatcher.__call__` (`fuzzymatcher.py` lines 76-113),
parameterised by the inherited `multi_match` (`mm`): for each label and each
stored (pattern, kwargs) pair — an empty kwargs dict falling back to the
instance defaults — tag every `multi_match` result with the label, collect
everything into a set (modelled by `dedup`) and sort by ascending start then
descending span length. -/
def fmCall (mm : List Token → List Token → KwDict → List (Nat × Nat × Nat))
    (st : FMState) (doc : List Token) : List (String × Nat × Nat) :=
  let tagged := st.pats.flatMap (fun en =>
    (en.2.1.zip en.2.2).flatMap (fun pk =>
      let kw := if pk.2.isEmpty then st.defaults else pk.2
      (mm doc pk.1 kw).map (fun m => (en.1, m.1, m.2.1))))
  insSort fmLe tagged.dedup

/-- A plain content token with trailing whitespace `ws`. -/
def tkW (t : String) (ws : String) : Token := ⟨t, ws, false, false⟩

/-- A stop-word token (spaCy `is_stop`) with trailing whitespace `ws`. -/
def tkStop (t : String) (ws : String) : Token := ⟨t, ws, true, false⟩

/-- A punctuation token (spaCy `is_punct`) with trailing whitespace `ws`. -/
def tkPunct (t : String) (ws : String) : Token := ⟨t, ws, false, true⟩

/-- The stop-word trim predicate of the default trim-rule registry. -/
def isStopP (t : Token) : Bool := t.is_stop

/-- The punctuation trim predicate of the default trim-rule registry. -/
def isPunctP (t : Token) : Bool := t.is_punct

/-- The spaCy tokenisation of "chiken from Popeyes is better than chken from
Chick-fil-A" (the hyphenated word splits into five tokens). -/
def chikenDoc : List Token :=
  [tkW "chiken" " ", tkStop "from" " ", tkW "Popeyes" " ", tkStop "is" " ",
   tkW "better" " ", tkStop "than" " ", tkW "chken" " ", tkStop "from" " ",
   tkW "Chick" "", tkPunct "-" "", tkW "fil" "", tkPunct "-" "", tkW "A" ""]

/-- The one-token query "chicken". -/
def chickenQuery : List Token := [tkW "chicken" ""]

/-- The spaCy tokenisation of "cow, cow, cow, cow". -/
def cowDoc : List Token :=
  [tkW "cow" "", tkPunct "," " ", tkW "cow" "", tkPunct "," " ", tkW "cow" "",
   tkPunct "," " ", tkW "cow" ""]

/-- The one-token query "cow". -/
def cowQuery : List Token := [tkW "cow" ""]

/-- The spaCy tokenisation of "G-rant Anderson lives in TN." (eight
tokens). -/
def grantDoc : List Token :=
  [tkW "G" "", tkPunct "-" "", tkW "rant" " ", tkW "Anderson" " ", tkW "lives" " ",
   tkStop "in" " ", tkW "TN" "", tkPunct "." ""]

/-- The two-token query "Grant Andersen". -/
def grantQuery : List Token := [tkW "Grant" " ", tkW "Andersen" ""]

/-- The one-token query "xenomorph". -/
def xenoQuery : List Token := [tkW "xenomorph" ""]

/-- The spaCy tokenisation of "The token we are looking for is: the." with
its stop-word and punctuation flags (tokens 7, 8, 9 are ":", "the", "."). -/
def squashDoc : List Token :=
  [tkStop "The" " ", tkW "token" " ", tkStop "we" " ", tkStop "are" " ",
   tkW "looking" " ", tkStop "for" " ", tkStop "is" "", tkPunct ":" " ",
   tkStop "the" "", tkPunct "." ""]

/-- The score map `{1: 30, 4: 50, 5: 50, 9: 100}` of the ranking-helper
tests, in insertion order. -/
def exampleScores : List (Nat × Nat) := [(1, 30), (4, 50), (5, 50), (9, 100)]

/-! ## General lemmas about the sorting and filtering primitives -/

theorem insertIn_perm (le : α → α → Bool) (x : α) :
    ∀ l : List α, (insertIn le x l).Perm (x :: l) := by
  intro l
  induction l with
  | nil => simp [insertIn]
  | cons y ys ih =>
    unfold insertIn
    by_cases h : le x y = true
    · simp [h]
    · simp only [h, if_false]
      exact (List.Perm.cons y ih).trans (List.Perm.swap x y ys)

theorem insSort_perm (le : α → α → Bool) : ∀ l : List α, (insSort le l).Perm l := by
  intro l
  induction l with
  | nil => simp [insSort]
  | cons x xs ih =>
    unfold insSort
    exact (insertIn_perm le x (insSort le xs)).trans (List.Perm.cons x ih)

theorem pairwise_insertIn (le : α → α → Bool)
    (htr : ∀ a b c, le a b = true → le b c = true → le a c = true)
    (hto : ∀ a b, le a b = true ∨ le b a = true) (x : α) :
    ∀ l : List α, l.Pairwise (fun a b => le a b = true) →
      (insertIn le x l).Pairwise (fun a b => le a b = true) := by
  intro l
  induction l with
  | nil => intro _; simp [insertIn]
  | cons y ys ih =>
    intro h
    rw [List.pairwise_cons] at h
    obtain ⟨hy, hys⟩ := h
    unfold insertIn
    by_cases hxy : le x y = true
    · rw [if_pos hxy]
      rw [List.pairwise_cons]
      constructor
      · intro z hz
        rcases List.mem_cons.mp hz with rfl | hz
        · exact hxy
        · exact htr x y z hxy (hy z hz)
      · rw [List.pairwise_cons]; exact ⟨hy, hys⟩
    · rw [if_neg hxy]
      rw [List.pairwise_cons]
      constructor
      · intro z hz
        rcases List.mem_cons.mp ((insertIn_perm le x ys).mem_iff.mp hz) with hzx | hz
        · rw [hzx]
          rcases hto x y with h | h
          · exact absurd h hxy
          · exact h
        · exact hy z hz
      · exact ih hys

theorem pairwise_insSort (le : α → α → Bool)
    (htr : ∀ a b c, le a b = true → le b c = true → le a c = true)
    (hto : ∀ a b, le a b = true ∨ le b a = true) :
    ∀ l : List α, (insSort le l).Pairwise (fun a b => le a b = true) := by
  intro l
  induction l with
  | nil => simp [insSort]
  | cons x xs ih => exact pairwise_insertIn le htr hto x (insSort le xs) ih

theorem overlapsB_symm (a b : Nat × Nat × Nat) : overlapsB a b = overlapsB b a := by
  simp [overlapsB, Bool.and_comm]

theorem filterOverAux_pairwise :
    ∀ (ms acc : List (Nat × Nat × Nat)),
      acc.Pairwise (fun a b => overlapsB a b = false) →
      (filterOverAux acc ms).Pairwise (fun a b => overlapsB a b = false) := by
  intro ms
  induction ms with
  | nil =>
    intro acc hacc
    unfold filterOverAux
    rw [List.pairwise_reverse]
    exact hacc.imp (fun {a b} hab => by rw [overlapsB_symm]; exact hab)
  | cons m rest ih =>
    intro acc hacc
    unfold filterOverAux
    by_cases h : acc.any (fun k => overlapsB m k) = true
    · simp only [h, if_true]
      exact ih acc hacc
    · simp only [h, if_false]
      refine ih (m :: acc) ?_
      rw [List.pairwise_cons]
      refine ⟨fun k hk => ?_, hacc⟩
      have := List.any_eq_false.mp (Bool.not_eq_true _ ▸ h) k hk
      simpa using this

theorem filterOverAux_split :
    ∀ (ms acc : List (Nat × Nat × Nat)),
      ∃ t, filterOverAux acc ms = acc.reverse ++ t ∧ t.Sublist ms := by
  intro ms
  induction ms with
  | nil =>
    intro acc
    exact ⟨[], by simp [filterOverAux], List.Sublist.refl []⟩
  | cons m rest ih =>
    intro acc
    unfold filterOverAux
    by_cases h : acc.any (fun k => overlapsB m k) = true
    · simp only [h, if_true]
      obtain ⟨t, ht, hs⟩ := ih acc
      exact ⟨t, ht, hs.cons m⟩
    · simp only [h, if_false]
      obtain ⟨t, ht, hs⟩ := ih (m :: acc)
      refine ⟨m :: t, ?_, hs.cons₂ m⟩
      rw [ht]
      simp

theorem filterOverlapping_pairwise (ms : List (Nat × Nat × Nat)) :
    (filterOverlappingMatches ms).Pairwise (fun a b => overlapsB a b = false) :=
  filterOverAux_pairwise ms [] (List.Pairwise.nil)

theorem filterOverlapping_sublist (ms : List (Nat × Nat × Nat)) :
    (filterOverlappingMatches ms).Sublist ms := by
  obtain ⟨t, ht, hs⟩ := filterOverAux_split ms []
  unfold filterOverlappingMatches
  rw [ht]
  simpa using hs

theorem matchLe_trans (a b c : Nat × Nat × Nat)
    (hab : matchLe a b = true) (hbc : matchLe b c = true) : matchLe a c = true := by
  simp only [matchLe, Bool.or_eq_true, Bool.and_eq_true, beq_iff_eq,
    decide_eq_true_eq] at *
  omega

theorem matchLe_total (a b : Nat × Nat × Nat) :
    matchLe a b = true ∨ matchLe b a = true := by
  simp only [matchLe, Bool.or_eq_true, Bool.and_eq_true, beq_iff_eq,
    decide_eq_true_eq]
  omega

theorem fmLe_trans (a b c : String × Nat × Nat)
    (hab : fmLe a b = true) (hbc : fmLe b c = true) : fmLe a c = true := by
  simp only [fmLe, Bool.or_eq_true, Bool.and_eq_true, beq_iff_eq,
    decide_eq_true_eq] at *
  omega

theorem fmLe_total (a b : String × Nat × Nat) :
    fmLe a b = true ∨ fmLe b a = true := by
  simp only [fmLe, Bool.or_eq_true, Bool.and_eq_true, beq_iff_eq,
    decide_eq_true_eq]
  omega

theorem length_filterMap_some (f : α → β) :
    ∀ l : List α, (l.filterMap fun a => some (f a)).length = l.length := by
  intro l
  induction l with
  | nil => simp
  | cons x xs ih => simp [ih]

theorem optimize_some_score (doc query : List Token) (sim : String → String → Nat)
    (r2 : Nat) (ic : Bool) (flex : Nat) (tr : List (Token → Bool)) (pos : Nat)
    (m : Nat × Nat × Nat)
    (h : optimize doc query sim r2 ic flex tr pos = some m) : r2 ≤ m.2.2 := by
  simp only [optimize] at h
  split at h
  · exact absurd h (by simp)
  · split at h
    · split at h
      · exact absurd h (by simp)
      · rename_i hsc
        obtain rfl := (Option.some_inj.mp h).symm
        dsimp only
        omega
    · exact absurd h (by simp)

theorem multiMatch_take (doc query : List Token) (sim : String → String → Nat)
    (r1 r2 : Nat) (ic : Bool) (flex : Nat) (tr : List (Token → Bool)) (n : Nat)
    (hn : n ≠ 0) :
    multiMatch doc query sim r1 r2 ic flex tr n =
      (multiMatch doc query sim r1 r2 ic flex tr 0).take n := by
  unfold multiMatch
  simp [hn]

theorem multiMatch_mem (doc query : List Token) (sim : String → String → Nat)
    (r1 r2 : Nat) (ic : Bool) (flex : Nat) (tr : List (Token → Bool)) (n : Nat)
    (m : Nat × Nat × Nat) (h : m ∈ multiMatch doc query sim r1 r2 ic flex tr n) :
    ∃ kv, kv ∈ scanDoc doc query sim r1 ic ∧
      optimize doc query sim r2 ic flex tr kv.1 = some m := by
  simp only [multiMatch] at h
  have h2 : m ∈ filterOverlappingMatches (sortMatches ((scanDoc doc query sim r1 ic).filterMap
      (fun kv => optimize doc query sim r2 ic flex tr kv.1))) := by
    split at h
    · exact h
    · exact (List.take_sublist n _).subset h
  have h3 := (filterOverlapping_sublist _).subset h2
  have h4 := (insSort_perm matchLe _).mem_iff.mp h3
  exact List.mem_filterMap.mp h4

theorem multiMatch_sorted (doc query : List Token) (sim : String → String → Nat)
    (r1 r2 : Nat) (ic : Bool) (flex : Nat) (tr : List (Token → Bool)) (n : Nat) :
    (multiMatch doc query sim r1 r2 ic flex tr n).Pairwise
      (fun a b => matchLe a b = true) := by
  have hs := pairwise_insSort matchLe matchLe_trans matchLe_total
    ((scanDoc doc query sim r1 ic).filterMap
      (fun kv => optimize doc query sim r2 ic flex tr kv.1))
  have hf := List.Pairwise.sublist (filterOverlapping_sublist _) hs
  simp only [multiMatch]
  split
  · exact hf
  · exact List.Pairwise.sublist (List.take_sublist n _) hf

theorem multiMatch_disjoint (doc query : List Token) (sim : String → String → Nat)
    (r1 r2 : Nat) (ic : Bool) (flex : Nat) (tr : List (Token → Bool)) (n : Nat) :
    (multiMatch doc query sim r1 r2 ic flex tr n).Pairwise
      (fun a b => overlapsB a b = false) := by
  have hf := filterOverlapping_pairwise (sortMatches ((scanDoc doc query sim r1 ic).filterMap
      (fun kv => optimize doc query sim r2 ic flex tr kv.1)))
  simp only [multiMatch]
  split
  · exact hf
  · exact List.Pairwise.sublist (List.take_sublist n _) hf

/-- C2: the overlap filter, applied to any ordered list of matches, keeps an
order-preserving selection of them in which every kept match's
`[start, end)` range is disjoint from every other kept (in particular every
previously kept) match's range; the first entry wins on overlap, so
`[(1,2,80),(1,3,70)]` filters to `[(1,2,80)]`; consequently no two matches
of any `multiMatch` result list overlap. -/
theorem C2_overlap_filter :
    (∀ ms : List (Nat × Nat × Nat),
      (filterOverlappingMatches ms).Sublist ms ∧
      (filterOverlappingMatches ms).Pairwise (fun a b => overlapsB a b = false)) ∧
    filterOverlappingMatches [(1, 2, 80), (1, 3, 70)] = [(1, 2, 80)] ∧
    (∀ (doc query : List Token) (sim : String → String → Nat) (r1 r2 : Nat) (ic : Bool)
      (flex : Nat) (tr : List (Token → Bool)) (n : Nat),
      (multiMatch doc query sim r1 r2 ic flex tr n).Pairwise
        (fun a b => overlapsB a b = false)) :=
  ⟨fun ms => ⟨filterOverlapping_sublist ms, filterOverlapping_pairwise ms⟩,
   by decide,
   fun doc query sim r1 r2 ic flex tr n =>
     multiMatch_disjoint doc query sim r1 r2 ic flex tr n⟩

/-- C3 (counterexample): on the score map `{1: 30, 4: 50, 5: 50, 9: 100}` the
ranking helper called with `n = 0` does not return the ranked key list
`[9, 4, 5, 1]` — it hands back the input mapping itself, as the repository's
test `test__indice_maxes_returns_input_if_n_is_0` requires (`result == d`
would be false for any list). -/
theorem C3_indice_maxes_counterexample :
    indiceMaxes exampleScores 0 ≠ IndiceResult.keys [9, 4, 5, 1] := by
  decide

/-- C3 (amended): `_indice_maxes` with `n = 0` returns the input score map
itself, unchanged (its keys stay in insertion order, `[1, 4, 5, 9]` on the
example, not the ranked order); only for `n > 0` does it return a key list
ranked by descending score then ascending key, e.g. `[9, 4, 5]` for
`n = 3`. -/
theorem C3_indice_maxes_amended :
    (∀ m : List (Nat × Nat), indiceMaxes m 0 = .mapping m) ∧
    indiceMaxes exampleScores 3 = .keys [9, 4, 5] ∧
    indiceMaxes exampleScores 0 = .mapping [(1, 30), (4, 50), (5, 50), (9, 100)] :=
  ⟨fun m => by simp [indiceMaxes], by decide, by decide⟩

/-- C4: scanning with `min_score = 0` yields one candidate per valid start
offset — exactly `len(doc) - len(query) + 1` entries when the query fits,
and an empty candidate map when the document is shorter than the query. -/
theorem C4_scan_window_counts :
    ∀ (doc query : List Token) (sim : String → String → Nat) (ic : Bool),
    (query.length ≤ doc.length →
      (scanDoc doc query sim 0 ic).length = doc.length - query.length + 1) ∧
    (doc.length < query.length → scanDoc doc query sim 0 ic = []) := by
  intro doc query sim ic
  constructor
  · intro h
    unfold scanDoc
    simp only [Nat.zero_le, if_true]
    rw [length_filterMap_some
      (fun i => (i, matchScore sim ic (spanText doc i (i + query.length)) (docText query)))]
    rw [List.length_range]
    omega
  · intro h
    simp only [scanDoc]
    have h0 : doc.length + 1 - query.length = 0 := by omega
    rw [h0]
    simp

/-- C4 (witness): the counting law evaluated on the chicken document (13
tokens) against the one-token query, and on the swapped pair. -/
theorem C4_scan_window_counts_witness :
    (scanDoc chikenDoc chickenQuery ratioScore 0 false).length =
      chikenDoc.length - chickenQuery.length + 1 ∧
    scanDoc chickenQuery chikenDoc ratioScore 0 false = [] :=
  ⟨(C4_scan_window_counts chikenDoc chickenQuery ratioScore false).1 (by decide),
   (C4_scan_window_counts chickenQuery chikenDoc ratioScore false).2 (by decide)⟩

/-- C6: constructing the similarity registry succeeds exactly for the modes
"phrase" (installing precisely the ten named functions, in source order) and
"token" (installing precisely the plain ratio and the quick ratio), and
fails with the invalid-configuration error for every other mode string. -/
theorem C6_registry_modes :
    FuzzyFuncs.init "phrase" = .ok ⟨"phrase", phraseFuncs⟩ ∧
    phraseFuncs.map Prod.fst = ["simple", "partial", "token_set", "token_sort", "token",
      "partial_token_set", "partial_token_sort", "partial_token", "weighted", "quick"] ∧
    FuzzyFuncs.init "token" = .ok ⟨"token", tokenFuncs⟩ ∧
    tokenFuncs.map Prod.fst = ["simple", "quick"] ∧
    (∀ mt : String, mt ≠ "phrase" → mt ≠ "token" →
      FuzzyFuncs.init mt = .error .invalidMatchType) := by
  refine ⟨by rfl, by decide, by rfl, by decide, fun mt h1 h2 => ?_⟩
  simp [FuzzyFuncs.init, h1, h2]

/-- C6 (witness): constructing the registry with the mode "bogus" fails with
the invalid-configuration error. -/
theorem C6_registry_modes_witness :
    FuzzyFuncs.init "bogus" = .error .invalidMatchType :=
  C6_registry_modes.2.2.2.2 "bogus" (by decide) (by decide)

/-- C7: `FuzzyFuncs.get` resolves a requested name case-insensitively (success
is equivalent to a lookup of the case-folded name); a miss produces the error
carrying the active mode, the requested name and the list of available names,
as on the concrete phrase-mode lookups of "SIMPLE" and "bogus". -/
theorem C7_registry_get :
    (∀ (ff : FuzzyFuncs) (name : String),
      (∀ f, ff.get name = .ok f ↔ ff.fuzzy_funcs.lookup (toLowerStr name) = some f) ∧
      (ff.fuzzy_funcs.lookup (toLowerStr name) = none →
        ff.get name = .error (ff.match_type, name, ff.fuzzy_funcs.map Prod.fst))) ∧
    FuzzyFuncs.get ⟨"phrase", phraseFuncs⟩ "SIMPLE" = .ok .simpleF ∧
    FuzzyFuncs.get ⟨"phrase", phraseFuncs⟩ "bogus" =
      .error ("phrase", "bogus", ["simple", "partial", "token_set", "token_sort", "token",
        "partial_token_set", "partial_token_sort", "partial_token", "weighted", "quick"]) := by
  refine ⟨fun ff name => ⟨fun f => ?_, fun h => ?_⟩, by rfl, by rfl⟩
  · unfold FuzzyFuncs.get
    cases h : ff.fuzzy_funcs.lookup (toLowerStr name) with
    | none => simp
    | some g => simp
  · unfold FuzzyFuncs.get
    rw [h]

/-- C7 (witness): looking up "nope" in the token-mode registry fails with the
error naming the mode, the requested name and the two available names. -/
theorem C7_registry_get_witness :
    FuzzyFuncs.get ⟨"token", tokenFuncs⟩ "nope" =
      .error ("token", "nope", ["simple", "quick"]) :=
  (C7_registry_get.1 ⟨"token", tokenFuncs⟩ "nope").2 (by rfl)

theorem startLoopAux_le (doc : List Token) (tr : List (Token → Bool)) :
    ∀ f s, s ≤ startLoopAux doc tr f s ∧ startLoopAux doc tr f s ≤ s + f := by
  intro f
  induction f with
  | zero => intro s; simp [startLoopAux]
  | succ f ih =>
    intro s
    unfold startLoopAux
    by_cases h : isTrimmed doc tr s = true
    · rw [if_pos h]
      have := ih (s + 1)
      omega
    · rw [if_neg h]
      omega

theorem startLoopAux_stop (doc : List Token) (tr : List (Token → Bool)) :
    ∀ f s, startLoopAux doc tr f s = s + f ∨
      isTrimmed doc tr (startLoopAux doc tr f s) = false := by
  intro f
  induction f with
  | zero => intro s; left; simp [startLoopAux]
  | succ f ih =>
    intro s
    unfold startLoopAux
    by_cases h : isTrimmed doc tr s = true
    · rw [if_pos h]
      rcases ih (s + 1) with h1 | h1
      · left; rw [h1]; omega
      · right; exact h1
    · rw [if_neg h]
      right
      simpa using h

theorem enforceStart_some (doc : List Token) (tr : List (Token → Bool)) (s e s2 : Nat)
    (hse : s ≤ e) (h : enforceStartTrimmers doc tr s e = some s2) :
    s ≤ s2 ∧ s2 < e ∧ isTrimmed doc tr s2 = false := by
  simp only [enforceStartTrimmers, startLoop] at h
  split at h
  · exact absurd h (by simp)
  · rename_i hne
    obtain rfl := Option.some_inj.mp h
    have hb := startLoopAux_le doc tr (e - s) s
    have hst := startLoopAux_stop doc tr (e - s) s
    have hne2 : startLoopAux doc tr (e - s) s ≠ e := by simpa using hne
    rcases hst with h1 | h1
    · exact absurd (by omega : startLoopAux doc tr (e - s) s = e) hne2
    · refine ⟨hb.1, by omega, h1⟩

theorem endLoopAux_le (doc : List Token) (tr : List (Token → Bool)) :
    ∀ f e, e - f ≤ endLoopAux doc tr f e ∧ endLoopAux doc tr f e ≤ e := by
  intro f
  induction f with
  | zero => intro e; simp [endLoopAux]
  | succ f ih =>
    intro e
    unfold endLoopAux
    by_cases h : isTrimmed doc tr (e - 1) = true
    · rw [if_pos h]
      have := ih (e - 1)
      omega
    · rw [if_neg h]
      omega

theorem endLoopAux_stable (doc : List Token) (tr : List (Token → Bool)) (s2 : Nat)
    (hP : isTrimmed doc tr s2 = false) :
    ∀ k e f g, e = s2 + 1 + k → e - s2 ≤ f → e - s2 ≤ g →
      endLoopAux doc tr f e = endLoopAux doc tr g e ∧ s2 < endLoopAux doc tr f e := by
  intro k
  induction k with
  | zero =>
    intro e f g he hf hg
    obtain ⟨f2, rfl⟩ : ∃ f2, f = f2 + 1 := ⟨f - 1, by omega⟩
    obtain ⟨g2, rfl⟩ : ∃ g2, g = g2 + 1 := ⟨g - 1, by omega⟩
    subst he
    unfold endLoopAux
    rw [if_neg (by simpa using hP), if_neg (by simpa using hP)]
    omega
  | succ k ih =>
    intro e f g he hf hg
    obtain ⟨f2, rfl⟩ : ∃ f2, f = f2 + 1 := ⟨f - 1, by omega⟩
    obtain ⟨g2, rfl⟩ : ∃ g2, g = g2 + 1 := ⟨g - 1, by omega⟩
    unfold endLoopAux
    by_cases h : isTrimmed doc tr (e - 1) = true
    · rw [if_pos h, if_pos h]
      exact ih (e - 1) f2 g2 (by omega) (by omega) (by omega)
    · rw [if_neg h, if_neg h]
      exact ⟨rfl, by omega⟩

theorem enforceEnd_indep (doc : List Token) (tr : List (Token → Bool)) (s s2 e : Nat)
    (hs : s ≤ s2) (hlt : s2 < e) (hP : isTrimmed doc tr s2 = false) :
    enforceEndTrimmers doc tr s2 e = enforceEndTrimmers doc tr s e ∧
    (∀ e2, enforceEndTrimmers doc tr s2 e = some e2 → s2 < e2) := by
  obtain ⟨heq, hgt⟩ := endLoopAux_stable doc tr s2 hP (e - s2 - 1) e (e - s2) (e - s)
    (by omega) (by omega) (by omega)
  have hgt2 : s2 < endLoopAux doc tr (e - s) e := heq ▸ hgt
  constructor
  · simp only [enforceEndTrimmers, endLoop]
    rw [heq]
    rw [if_neg (by simp only [beq_iff_eq]; omega), if_neg (by simp only [beq_iff_eq]; omega)]
  · intro e2 h2
    simp only [enforceEndTrimmers, endLoop] at h2
    split at h2
    · exact absurd h2 (by simp)
    · obtain rfl := Option.some_inj.mp h2
      exact hgt

/-- C8: for every span `(s, e)` and active trim rules, an enforcement that
collapses the span yields an absent boundary, never a degenerate one
(a returned start is below `e`, a returned end is above `s`, and a returned
pair satisfies `s2 < e2`); the start-side enforcement runs on the original
span, and when it succeeds the end-side boundary equals the one computed on
the original `(s, e)` as well; when both boundaries are requested together a
start-side collapse is reported as a pair with the collapsed side absent and
the other boundary unchanged, e.g. `(none, some 10)` on the squash
document. -/
theorem C8_trim_collapse :
    (∀ (doc : List Token) (tr : List (Token → Bool)) (s e : Nat), s < e →
      (∀ s2, enforceStartTrimmers doc tr s e = some s2 → s2 < e) ∧
      (∀ e2, enforceEndTrimmers doc tr s e = some e2 → s < e2) ∧
      (enforceStartTrimmers doc tr s e = none →
        enforceTrimmingRules doc tr s e = (none, some e)) ∧
      (∀ s2, enforceStartTrimmers doc tr s e = some s2 →
        enforceTrimmingRules doc tr s e = (some s2, enforceEndTrimmers doc tr s e)) ∧
      (∀ s2 e2, enforceTrimmingRules doc tr s e = (some s2, some e2) → s2 < e2)) ∧
    enforceTrimmingRules squashDoc [isStopP, isPunctP] 7 10 = (none, some 10) := by
  constructor
  · intro doc tr s e hlt
    have hse : s ≤ e := Nat.le_of_lt hlt
    refine ⟨?_, ?_, ?_, ?_, ?_⟩
    · intro s2 h
      exact (enforceStart_some doc tr s e s2 hse h).2.1
    · intro e2 h
      simp only [enforceEndTrimmers, endLoop] at h
      split at h
      · exact absurd h (by simp)
      · rename_i hne
        obtain rfl := Option.some_inj.mp h
        have hb := endLoopAux_le doc tr (e - s) e
        have hne2 : endLoopAux doc tr (e - s) e ≠ s := by simpa using hne
        omega
    · intro h
      unfold enforceTrimmingRules
      rw [h]
    · intro s2 h
      obtain ⟨hs, hlt2, hP⟩ := enforceStart_some doc tr s e s2 hse h
      unfold enforceTrimmingRules
      rw [h]
      dsimp only
      rw [(enforceEnd_indep doc tr s s2 e hs hlt2 hP).1]
    · intro s2 e2 h
      unfold enforceTrimmingRules at h
      split at h
      · simp at h
      · rename_i s3 hs3
        obtain ⟨hs, hlt2, hP⟩ := enforceStart_some doc tr s e s3 hse hs3
        have h1 : s3 = s2 := by
          have := congrArg Prod.fst h
          simpa using this
        have h2 : enforceEndTrimmers doc tr s3 e = some e2 := by
          have := congrArg Prod.snd h
          simpa using this
        have := (enforceEnd_indep doc tr s s3 e hs hlt2 hP).2 e2 h2
        omega
  · decide

/-- C8 (witness): the collapse law applied to the squash document from the
repository's tests — trimming `(7, 10)` with the stop and punctuation rules
collapses the start side and reports `(none, some 10)`, the untouched end
boundary. -/
theorem C8_trim_collapse_witness :
    enforceTrimmingRules squashDoc [isStopP, isPunctP] 7 10 = (none, some 10) :=
  (C8_trim_collapse.1 squashDoc [isStopP, isPunctP] 7 10 (by decide)).2.2.1 (by decide)

set_option maxRecDepth 100000

/-- C1: `multi_match` returns exactly the optimized matches that survive both
thresholds — every returned match is the optimization of a first-pass scan
candidate and meets `min_score2` — sorted by descending score then ascending
start index, truncated to the top `n` (`n = 0` meaning unlimited); on the
document "chiken from Popeyes is better than chken from Chick-fil-A" with
query "chicken" under case-sensitive comparison it returns
`[(0, 1, 92), (6, 7, 83)]`, and with `n = 2` on "cow, cow, cow, cow" against
"cow" it returns `[(0, 1, 100), (2, 3, 100)]`, the two earliest
non-overlapping score-100 matches. -/
theorem C1_multi_match_pipeline :
    (∀ (doc query : List Token) (sim : String → String → Nat) (r1 r2 : Nat) (ic : Bool)
      (flex : Nat) (tr : List (Token → Bool)) (n : Nat) (m : Nat × Nat × Nat),
      m ∈ multiMatch doc query sim r1 r2 ic flex tr n →
        r2 ≤ m.2.2 ∧ ∃ kv, kv ∈ scanDoc doc query sim r1 ic ∧
          optimize doc query sim r2 ic flex tr kv.1 = some m) ∧
    (∀ (doc query : List Token) (sim : String → String → Nat) (r1 r2 : Nat) (ic : Bool)
      (flex : Nat) (tr : List (Token → Bool)) (n : Nat),
      (multiMatch doc query sim r1 r2 ic flex tr n).Pairwise
        (fun a b => matchLe a b = true)) ∧
    (∀ (doc query : List Token) (sim : String → String → Nat) (r1 r2 : Nat) (ic : Bool)
      (flex : Nat) (tr : List (Token → Bool)) (n : Nat), n ≠ 0 →
      multiMatch doc query sim r1 r2 ic flex tr n =
        (multiMatch doc query sim r1 r2 ic flex tr 0).take n) ∧
    multiMatchDefault chikenDoc chickenQuery false 0 = [(0, 1, 92), (6, 7, 83)] ∧
    multiMatchDefault cowDoc cowQuery true 2 = [(0, 1, 100), (2, 3, 100)] := by
  refine ⟨?_, multiMatch_sorted, multiMatch_take, by decide, by decide⟩
  intro doc query sim r1 r2 ic flex tr n m hm
  obtain ⟨kv, hkv, hopt⟩ := multiMatch_mem doc query sim r1 r2 ic flex tr n m hm
  exact ⟨optimize_some_score doc query sim r2 ic flex tr kv.1 m hopt, kv, hkv, hopt⟩

/-- C1 (witness): the pipeline laws applied at the concrete inputs — the
match `(0, 1, 92)` of the chicken document survives threshold 75 and stems
from optimizing a scan candidate, and the `n = 2` cow result is the top-2
truncation of the unlimited result. -/
theorem C1_multi_match_pipeline_witness :
    (75 ≤ 92 ∧ ∃ kv, kv ∈ scanDoc chikenDoc chickenQuery ratioScore 75 false ∧
      optimize chikenDoc chickenQuery ratioScore 75 false 1 [] kv.1 = some (0, 1, 92)) ∧
    multiMatch cowDoc cowQuery ratioScore 75 75 true 1 [] 2 =
      (multiMatch cowDoc cowQuery ratioScore 75 75 true 1 [] 0).take 2 :=
  ⟨C1_multi_match_pipeline.1 chikenDoc chickenQuery ratioScore 75 75 false 1 [] 0
      (0, 1, 92) (by decide),
   C1_multi_match_pipeline.2.2.1 cowDoc cowQuery ratioScore 75 75 true 1 [] 2
      (by decide)⟩

/-- C5: `best_match` with default settings returns a single match satisfying
the second threshold, or none: every returned match's score is at least
`min_score2`, and on the document "G-rant Anderson lives in TN." it returns
`(0, 4, 90)` for the query "Grant Andersen" and none for the query
"xenomorph". -/
theorem C5_best_match :
    (∀ (doc query : List Token) (sim : String → String → Nat) (r1 r2 : Nat) (ic : Bool)
      (flex : Nat) (tr : List (Token → Bool)) (m : Nat × Nat × Nat),
      bestMatch doc query sim r1 r2 ic flex tr = some m → r2 ≤ m.2.2) ∧
    bestMatchDefault grantDoc grantQuery = some (0, 4, 90) ∧
    bestMatchDefault grantDoc xenoQuery = none := by
  refine ⟨?_, by decide, by decide⟩
  intro doc query sim r1 r2 ic flex tr m h
  simp only [bestMatch] at h
  split at h
  · exact absurd h (by simp)
  · exact optimize_some_score doc query sim r2 ic flex tr _ m h

/-- C5 (witness): the threshold law applied to the concrete best match of the
Grant document, whose score 90 indeed meets the default threshold 75. -/
theorem C5_best_match_witness :
    bestMatch grantDoc grantQuery ratioScore 75 75 true 2 [] = some (0, 4, 90) ∧ 75 ≤ 90 :=
  ⟨by decide,
   C5_best_match.1 grantDoc grantQuery ratioScore 75 75 true 2 [] (0, 4, 90) (by decide)⟩

/-- C9: calling the matcher on a document collects, for every stored label
and every stored (pattern, kwargs) pair — an empty kwargs dict falling back
to the instance defaults — the `multi_match` results tagged with the owning
label, deduplicated by exact `(label, start, end)` identity (the result has
no duplicates, and membership is exactly the tagged union over all stored
patterns), and sorted by ascending start index then descending span
length. -/
theorem C9_matcher_call :
    ∀ (mm : List Token → List Token → KwDict → List (Nat × Nat × Nat))
      (st : FMState) (doc : List Token),
      (fmCall mm st doc).Nodup ∧
      (fmCall mm st doc).Pairwise (fun a b => fmLe a b = true) ∧
      (∀ x, x ∈ fmCall mm st doc ↔
        ∃ en ∈ st.pats, ∃ pk ∈ en.2.1.zip en.2.2, ∃ m ∈ mm doc pk.1
          (if pk.2.isEmpty then st.defaults else pk.2), (en.1, m.1, m.2.1) = x) := by
  intro mm st doc
  refine ⟨?_, ?_, ?_⟩
  · exact ((insSort_perm fmLe _).nodup_iff).mpr (List.nodup_dedup _)
  · exact pairwise_insSort fmLe fmLe_trans fmLe_total _
  · intro x
    simp only [fmCall]
    rw [(insSort_perm fmLe _).mem_iff, List.mem_dedup]
    simp [List.mem_flatMap, List.mem_map]

theorem lookup_setAssoc (label : String) (e : β) :
    ∀ ps : List (String × β), (setAssoc label e ps).lookup label = some e := by
  intro ps
  induction ps with
  | nil => simp [setAssoc, List.lookup]
  | cons kv rest ih =>
    obtain ⟨k, v⟩ := kv
    unfold setAssoc
    by_cases h : (k == label) = true
    · rw [if_pos h]
      have hk : (label == k) = true := by
        have := beq_iff_eq.mp h
        simp [this]
      simp [List.lookup, hk]
    · rw [if_neg h]
      have hk : (label == k) = false := by
        rcases Bool.eq_false_or_eq_true (label == k) with ht | hf
        · exact absurd (by simp [beq_iff_eq.mp ht]) h
        · exact hf
      simp [List.lookup, hk, ih]

theorem lookupEntry_appendPat (st : FMState) (label : String) (d : List Token) :
    lookupEntry (appendPat st label d) label =
      ((lookupEntry st label).1 ++ [d], (lookupEntry st label).2) := by
  simp only [appendPat]
  unfold lookupEntry
  rw [lookup_setAssoc]
  rfl

theorem lookupEntry_appendKw (st : FMState) (label : String) (kw : KwDict) :
    lookupEntry (appendKw st label kw) label =
      ((lookupEntry st label).1, (lookupEntry st label).2 ++ [kw]) := by
  simp only [appendKw]
  unfold lookupEntry
  rw [lookup_setAssoc]
  rfl

theorem addFold (label : String) :
    ∀ (pre : List (List Token × KwDict)) (st : FMState),
      lookupEntry (pre.foldl (fun s pk => appendKw (appendPat s label pk.1) label pk.2) st)
          label =
        ((lookupEntry st label).1 ++ pre.map Prod.fst,
         (lookupEntry st label).2 ++ pre.map Prod.snd) ∧
      (pre.foldl (fun s pk => appendKw (appendPat s label pk.1) label pk.2) st).callbacks =
        st.callbacks := by
  intro pre
  induction pre with
  | nil => intro st; simp
  | cons pk pre ih =>
    intro st
    simp only [List.foldl_cons, List.map_cons]
    obtain ⟨h1, h2⟩ := ih (appendKw (appendPat st label pk.1) label pk.2)
    constructor
    · rw [h1, lookupEntry_appendKw, lookupEntry_appendPat]
      simp
    · rw [h2]
      rfl

theorem addLoop_err (label : String) (st : FMState) (k : KwIn) (tail : List (PatIn × KwIn)) :
    addLoop label st ((PatIn.notDoc, k) :: tail) = (st, some .patternTypeError) := rfl

theorem addLoop_clean (label : String) :
    ∀ (pre : List (List Token × KwDict)) (st : FMState) (tail : List (PatIn × KwIn)),
      addLoop label st (pre.map (fun pk => (PatIn.doc pk.1, KwIn.dict pk.2)) ++ tail) =
        addLoop label (pre.foldl (fun s pk => appendKw (appendPat s label pk.1) label pk.2) st)
          tail := by
  intro pre
  induction pre with
  | nil => intro st tail; rfl
  | cons pk pre ih =>
    intro st tail
    simp only [List.map_cons, List.cons_append, List.foldl_cons]
    have hstep : addLoop label st ((PatIn.doc pk.1, KwIn.dict pk.2) ::
        (pre.map (fun pk => (PatIn.doc pk.1, KwIn.dict pk.2)) ++ tail)) =
        addLoop label (appendKw (appendPat st label pk.1) label pk.2)
          (pre.map (fun pk => (PatIn.doc pk.1, KwIn.dict pk.2)) ++ tail) := rfl
    rw [hstep]
    exact ih _ _

/-- C10: `FuzzyMatcher.add` is not atomic on error — whenever the patterns
iterable is a list of valid `Doc`s followed by a non-`Doc` element (with
well-formed kwargs entries alongside the valid prefix), `add` raises the
pattern `TypeError`, yet every pattern and kwargs dict processed before the
offending element remains registered under the label, and the callbacks
table is untouched: the state is not rolled back. -/
theorem C10_add_not_atomic :
    ∀ (st : FMState) (label : String) (pre : List (List Token × KwDict))
      (rest : List PatIn) (patterns : List PatIn) (kwOpt : Option (List KwIn))
      (onM : Option Nat) (k0 : KwIn) (ktail : List KwIn),
      patterns = pre.map (fun pk => PatIn.doc pk.1) ++ PatIn.notDoc :: rest →
      padKwargs kwOpt patterns.length = pre.map (fun pk => KwIn.dict pk.2) ++ k0 :: ktail →
      (fmAdd st label patterns kwOpt onM).2 = some .patternTypeError ∧
      lookupEntry (fmAdd st label patterns kwOpt onM).1 label =
        ((lookupEntry st label).1 ++ pre.map Prod.fst,
         (lookupEntry st label).2 ++ pre.map Prod.snd) ∧
      (fmAdd st label patterns kwOpt onM).1.callbacks = st.callbacks := by
  intro st label pre rest patterns kwOpt onM k0 ktail hpat hkw
  subst hpat
  simp only [fmAdd]
  rw [hkw]
  rw [List.zip_append (by simp)]
  rw [List.zip_map']
  have hz : (PatIn.notDoc :: rest).zip (k0 :: ktail) =
      (PatIn.notDoc, k0) :: rest.zip ktail := rfl
  rw [hz]
  rw [addLoop_clean label pre st ((PatIn.notDoc, k0) :: rest.zip ktail)]
  rw [addLoop_err]
  dsimp only
  exact ⟨rfl, (addFold label pre st).1, (addFold label pre st).2⟩

/-- C10 (witness): adding the pattern list `[Doc "mooo", 3]` under the label
"TEST" to an empty matcher raises the pattern `TypeError` while leaving the
valid "mooo" pattern (and its empty kwargs dict) registered under "TEST". -/
theorem C10_add_not_atomic_witness :
    (fmAdd ⟨[], [], []⟩ "TEST" [PatIn.doc [tkW "mooo" ""], PatIn.notDoc] none none).2 =
      some .patternTypeError ∧
    lookupEntry (fmAdd ⟨[], [], []⟩ "TEST"
        [PatIn.doc [tkW "mooo" ""], PatIn.notDoc] none none).1 "TEST" =
      ((lookupEntry ⟨[], [], []⟩ "TEST").1 ++
        [([tkW "mooo" ""], ([] : KwDict))].map Prod.fst,
       (lookupEntry ⟨[], [], []⟩ "TEST").2 ++
        [([tkW "mooo" ""], ([] : KwDict))].map Prod.snd) ∧
    (fmAdd ⟨[], [], []⟩ "TEST"
        [PatIn.doc [tkW "mooo" ""], PatIn.notDoc] none none).1.callbacks =
      FMState.callbacks ⟨[], [], []⟩ :=
  C10_add_not_atomic ⟨[], [], []⟩ "TEST" [([tkW "mooo" ""], [])] []
    [PatIn.doc [tkW "mooo" ""], PatIn.notDoc] none none (.dict []) []
    (by rfl) (by rfl)
